import Mathlib

/-!
Verification of the Selfie2Snap image-processing and packaging core.

This file gives a shallow embedding, in Lean, of the algorithmic parts of the
Selfie2Snap repository:

* the batch archive builder (`handleBatchDownload` in the BatchDownload
  component, mirrored by `handleDownloadAll` in `FavoritesPanel.tsx`),
* the per-pixel enhancement pipeline and the sharpening convolution
  (`applyEnhancements` and `applySharpening` in `ImageEnhancer.tsx`),
* the watermark layout computation (`drawWatermark` in `WatermarkEditor.tsx`)
  and the download-button guard of the watermark editor.

JavaScript numbers are modelled as exact rationals (`ℚ`); stores into a
`Uint8ClampedArray` are modelled by `toUint8Clamp`, the ECMAScript
`ToUint8Clamp` conversion (clamp to `[0, 255]`, then round to the nearest
integer, ties to even); `Math.round` is modelled by `jsRound`
(round half up).  The theorems below state and settle the behavioural
properties of these routines.
-/

namespace Selfie2Snap

/-! ## Archive builder

Model of `handleBatchDownload` (BatchDownload component) and
`handleDownloadAll` (`FavoritesPanel.tsx`).  Both iterate over the input list
with index `i`; a source whose string starts with `data:` is inserted directly
from its base64 payload, any other source is fetched and its response body
read as a blob and inserted.  The `fetch`/`blob` pair sits in a `try`/`catch`
whose handler only logs, so a rejected promise skips the source.  Note the
code never consults `response.ok`. -/

/-- One entry of the generated archive: a file name and its content. -/
structure ZipEntry where
  name : String
  content : String
deriving DecidableEq, Repr

/-- The value a resolved `fetch` promise carries: the `ok` flag of the HTTP
response (true exactly for status 200–299) and the result of reading the body,
`some blob` when `response.blob()` resolves and `none` when it rejects. -/
structure FetchResponse where
  ok : Bool
  body : Option String
deriving DecidableEq, Repr

/-- Outcome of `fetch(imageUrl)`: the promise either rejects (network error)
or resolves with a response. -/
inductive FetchOutcome where
  | reject
  | resolve (response : FetchResponse)
deriving DecidableEq, Repr

/-- An image source handed to the archive builder: either an inline
`data:` URL (with its base64 payload, the part after the comma) or a remote
URL, abstracted by the outcome fetching it would produce. -/
inductive Source where
  | dataUrl (base64Payload : String)
  | remote (outcome : FetchOutcome)
deriving DecidableEq, Repr

/-- Archive entry name built by the loop body:
the template is label-(i+1) followed by the .png extension. -/
def entryName (label : String) (n : ℕ) : String :=
  label ++ "-" ++ toString n ++ ".png"

/-- One iteration of the download loop at index `i`: a `data:` source is
inserted directly; a remote source is fetched and its body inserted, and any
rejection (of `fetch` or of `blob()`) is caught, so the source yields no
entry.  The code adds the body whenever both promises resolve — it never
checks `response.ok`. -/
def processSource (label : String) (i : ℕ) : Source → Option ZipEntry
  | .dataUrl payload => some ⟨entryName label (i + 1), payload⟩
  | .remote .reject => none
  | .remote (.resolve resp) =>
    match resp.body with
    | some blob => some ⟨entryName label (i + 1), blob⟩
    | none => none

/-- The entries accumulated by the loop `for (let i = 0; i < images.length; i++)`,
starting at index `i`. -/
def batchEntries (label : String) : ℕ → List Source → List ZipEntry
  | _, [] => []
  | i, s :: rest =>
    match processSource label i s with
    | some e => e :: batchEntries label (i + 1) rest
    | none => batchEntries label (i + 1) rest

/-- `Math.round` on an exact rational: round half away from zero; for the
non-negative arguments used here this is floor of x + 1/2. -/
def jsRound (x : ℚ) : ℤ := ⌊x + 1 / 2⌋

/-- The successive values passed to `setProgress` inside the loop:
after the source at index `i`, `Math.round(((i + 1) / images.length) * 100)`. -/
def batchProgress (total : ℕ) : List ℤ :=
  (List.range total).map (fun (i : ℕ) => jsRound ((((i : ℚ) + 1) / (total : ℚ)) * 100))

/-- Observable result of a completed batch download: the archive entries, the
per-source progress reports, and the success toast message. -/
structure BatchResult where
  entries : List ZipEntry
  progressReports : List ℤ
  successMessage : String
deriving DecidableEq, Repr

/-- `handleBatchDownload` from the BatchDownload component: an empty input
list aborts with an error toast before any work (`none`); otherwise every
source is processed in order, progress is reported after each one, and on
successful serialization the toast reports `images.length` images. -/
def handleBatchDownload (images : List Source) : Option BatchResult :=
  if images.length = 0 then none
  else some
    { entries := batchEntries "snap" 0 images
      progressReports := batchProgress images.length
      successMessage := "Downloaded " ++ toString images.length ++ " images as ZIP!" }

/-- A source fails (yields no archive entry) exactly when fetching it rejects
or reading its body rejects; a `data:` source never fails, and a resolved
response with a readable body never fails, whatever its `ok` flag. -/
def sourceFails : Source → Bool
  | .dataUrl _ => false
  | .remote .reject => true
  | .remote (.resolve resp) => resp.body.isNone

/-- The 0-based input positions of the sources that succeed, the loop
starting at index `i`. -/
def successIndexes : ℕ → List Source → List ℕ
  | _, [] => []
  | i, s :: rest =>
    if sourceFails s then successIndexes (i + 1) rest
    else i :: successIndexes (i + 1) rest

theorem processSource_eq_none_iff (label : String) (i : ℕ) (s : Source) :
    processSource label i s = none ↔ sourceFails s = true := by
  cases s with
  | dataUrl payload => simp [processSource, sourceFails]
  | remote outcome =>
    cases outcome with
    | reject => simp [processSource, sourceFails]
    | resolve resp =>
      cases hb : resp.body <;> simp [processSource, sourceFails, hb]

theorem processSource_of_not_fails (label : String) (i : ℕ) (s : Source)
    (h : sourceFails s = false) :
    ∃ content, processSource label i s = some ⟨entryName label (i + 1), content⟩ := by
  cases s with
  | dataUrl payload => exact ⟨payload, rfl⟩
  | remote outcome =>
    cases outcome with
    | reject => simp [sourceFails] at h
    | resolve resp =>
      cases hb : resp.body with
      | none => simp [sourceFails, hb] at h
      | some blob => exact ⟨blob, by simp [processSource, hb]⟩

/-- The number of archive entries equals the number of non-failing sources. -/
theorem batchEntries_length (label : String) (i : ℕ) (ss : List Source) :
    (batchEntries label i ss).length = (ss.filter (fun s => !sourceFails s)).length := by
  induction ss generalizing i with
  | nil => rfl
  | cons s rest ih =>
    by_cases hf : sourceFails s = true
    · have hnone : processSource label i s = none :=
        (processSource_eq_none_iff label i s).mpr hf
      simp [batchEntries, hnone, List.filter, hf, ih]
    · have hf' : sourceFails s = false := by
        cases h : sourceFails s with
        | false => rfl
        | true => exact absurd h hf
      obtain ⟨content, hsome⟩ := processSource_of_not_fails label i s hf'
      simp [batchEntries, hsome, List.filter, hf', ih]

/-- The archive entry names are the success positions, shifted to 1-based,
rendered through the naming template, in input order. -/
theorem batchEntries_names (label : String) (i : ℕ) (ss : List Source) :
    (batchEntries label i ss).map ZipEntry.name
      = (successIndexes i ss).map (fun j => entryName label (j + 1)) := by
  induction ss generalizing i with
  | nil => rfl
  | cons s rest ih =>
    by_cases hf : sourceFails s = true
    · have hnone : processSource label i s = none :=
        (processSource_eq_none_iff label i s).mpr hf
      simp [batchEntries, hnone, successIndexes, hf, ih]
    · have hf' : sourceFails s = false := by
        cases h : sourceFails s with
        | false => rfl
        | true => exact absurd h hf
      obtain ⟨content, hsome⟩ := processSource_of_not_fails label i s hf'
      simp [batchEntries, hsome, successIndexes, hf', ih]

/-- Every success index produced from start index `i` is at least `i`. -/
theorem successIndexes_ge (i : ℕ) (ss : List Source) :
    ∀ j ∈ successIndexes i ss, i ≤ j := by
  induction ss generalizing i with
  | nil => intro j hj; simp [successIndexes] at hj
  | cons s rest ih =>
    intro j hj
    by_cases hf : sourceFails s = true
    · simp only [successIndexes, hf, if_pos] at hj
      exact Nat.le_of_succ_le (ih (i + 1) j hj)
    · have hf' : sourceFails s = false := by
        cases h : sourceFails s with
        | false => rfl
        | true => exact absurd h hf
      simp only [successIndexes, hf', Bool.false_eq_true, if_neg, not_false_iff,
        List.mem_cons] at hj
      rcases hj with rfl | hj
      · exact le_rfl
      · exact Nat.le_of_succ_le (ih (i + 1) j hj)

/-- The success indexes are strictly increasing, so distinct sources always
receive distinct 1-based indexes in their entry names. -/
theorem successIndexes_sorted (i : ℕ) (ss : List Source) :
    (successIndexes i ss).Sorted (· < ·) := by
  induction ss generalizing i with
  | nil => simp [successIndexes]
  | cons s rest ih =>
    by_cases hf : sourceFails s = true
    · simpa [successIndexes, hf] using ih (i + 1)
    · have hf' : sourceFails s = false := by
        cases h : sourceFails s with
        | false => rfl
        | true => exact absurd h hf

      simp only [successIndexes, hf', Bool.false_eq_true, if_neg, not_false_iff]
      refine List.sorted_cons.mpr ⟨?_, ?_⟩
      · intro j hj
        exact Nat.lt_of_succ_le (successIndexes_ge (i + 1) rest j hj)
      · exact ih (i + 1)


theorem jsRound_mono {x y : ℚ} (h : x ≤ y) : jsRound x ≤ jsRound y :=
  Int.floor_le_floor (by linarith)

theorem jsRound_natCast (k : ℕ) : jsRound (k : ℚ) = k := by
  rw [jsRound, Int.floor_eq_iff]
  constructor
  · push_cast; linarith
  · push_cast; linarith

/-- The last per-source progress report of a non-empty job is 100. -/
theorem batchProgress_getLast (n : ℕ) (h : n ≠ 0) :
    (batchProgress n).getLast? = some 100 := by
  obtain ⟨m, rfl⟩ := Nat.exists_eq_succ_of_ne_zero h
  rw [batchProgress, List.range_succ, List.map_append, List.map_singleton,
    List.getLast?_concat]
  have hcast : ((m : ℚ) + 1) = ((m + 1 : ℕ) : ℚ) := by push_cast; ring
  have hn : ((m + 1 : ℕ) : ℚ) ≠ 0 := by positivity
  rw [hcast, div_self hn, one_mul]
  exact congrArg some (jsRound_natCast 100)

/-- The per-source progress reports are monotonically non-decreasing. -/
theorem batchProgress_sorted (n : ℕ) : (batchProgress n).Sorted (· ≤ ·) := by
  rcases Nat.eq_zero_or_pos n with rfl | hn
  · simp [batchProgress]
  · rw [batchProgress, List.Sorted, List.pairwise_map]
    refine (List.pairwise_lt_range n).imp ?_
    intro a b hab
    apply jsRound_mono
    have hnq : (0 : ℚ) < (n : ℚ) := by exact_mod_cast hn
    have hab' : ((a : ℚ) + 1) ≤ ((b : ℚ) + 1) := by
      exact_mod_cast Nat.succ_le_succ (le_of_lt hab)
    gcongr

/-- When some source fails, strictly fewer entries than inputs are produced. -/
theorem filter_not_fails_lt (ss : List Source)
    (h : ∃ s ∈ ss, sourceFails s = true) :
    (ss.filter (fun s => !sourceFails s)).length < ss.length := by
  induction ss with
  | nil => simp at h
  | cons s rest ih =>
    rcases h with ⟨t, ht, hft⟩
    rcases List.mem_cons.mp ht with rfl | htrest
    · simp only [List.filter, hft, Bool.not_true, List.length_cons]
      exact Nat.lt_succ_of_le (List.length_filter_le _ _)
    · by_cases hf : sourceFails s = true
      · simp only [List.filter, hf, Bool.not_true, List.length_cons]
        exact Nat.lt_succ_of_le (List.length_filter_le _ _)
      · have hf' : sourceFails s = false := by
          cases hc : sourceFails s with
          | false => rfl
          | true => exact absurd hc hf
        simp only [List.filter, hf', Bool.not_false, List.length_cons]
        exact Nat.succ_lt_succ (ih ⟨t, htrest, hft⟩)

/-! ## Claim C1 — per-source failure tolerance of the archive builder -/

/-- C1, counterexample.  The claim asserts that a non-OK HTTP response such
as a 404 is skipped, so that the two-element list whose second remote URL
404s yields an archive with exactly one entry.  The code never checks
`response.ok`: with the second source resolving to a 404 whose body is
readable, the body is inserted and the archive has two entries, not one. -/
theorem batch_404_two_entries :
    ((handleBatchDownload
        [Source.dataUrl "AAAA",
         Source.remote (.resolve ⟨false, some "NotFoundBody"⟩)]).map
      (fun r => r.entries.length)) = some 2 ∧
    ¬ ((handleBatchDownload
        [Source.dataUrl "AAAA",
         Source.remote (.resolve ⟨false, some "NotFoundBody"⟩)]).map
      (fun r => r.entries.length)) = some 1 := by
  constructor
  · rfl
  · intro hcontra
    simp only [handleBatchDownload] at hcontra
    exact absurd hcontra (by decide)

/-- C1, amended.  For every non-empty source list, a source whose fetch or
body read rejects (network error, unreadable body) is caught and skipped, the
job continues, the archive holds exactly one entry per non-failing source,
and the final progress report is 100.  A non-OK response with a readable body
is not treated as a failure, so the 404 scenario yields two entries. -/
theorem batch_failure_tolerant (images : List Source) (h : images ≠ []) :
    ∃ r, handleBatchDownload images = some r ∧
      r.entries.length = (images.filter (fun s => !sourceFails s)).length ∧
      r.progressReports.getLast? = some 100 := by
  have hlen : images.length ≠ 0 := by
    intro hc; exact h (List.length_eq_zero.mp hc)
  rw [handleBatchDownload, if_neg hlen]
  exact ⟨_, rfl, batchEntries_length "snap" 0 images,
    batchProgress_getLast images.length hlen⟩

/-- C1 witness: a concrete two-source job whose second source's fetch
rejects produces one entry and ends at progress 100. -/
theorem batch_failure_tolerant_witness :
    ∃ r, handleBatchDownload [Source.dataUrl "AAAA", Source.remote .reject]
        = some r ∧
      r.entries.length
        = (([Source.dataUrl "AAAA", Source.remote .reject]).filter
            (fun s => !sourceFails s)).length ∧
      r.progressReports.getLast? = some 100 :=
  batch_failure_tolerant [Source.dataUrl "AAAA", Source.remote .reject]
    (by decide)

/-! ## Claim C2 — archive entry naming -/

/-- C2, counterexample.  The claim asserts the entry names are always
label-1 … label-k for the k successful sources, with no gaps.  The code names
each entry by its position in the input list, so when the first source fails
and the second succeeds the single entry is named after position 2: the name
list is [snap-2.png], not [snap-1.png]. -/
theorem batch_naming_gap :
    ((handleBatchDownload [Source.remote .reject, Source.dataUrl "AAAA"]).map
        (fun r => r.entries.map ZipEntry.name)) = some ["snap-2.png"] ∧
    "snap-2.png" ≠ "snap-1.png" := by
  constructor
  · rfl
  · decide

/-- C2, amended.  Entry names follow the template label-(i+1) where `i` is
the 0-based position of the source in the input list, kept for exactly the
successful sources in input order; the positions used are strictly
increasing, so distinct entries always carry distinct indexes (no
collisions), but the sequence has gaps whenever an earlier source failed. -/
theorem batch_naming_positional (images : List Source) (h : images ≠ []) :
    ∃ r, handleBatchDownload images = some r ∧
      r.entries.map ZipEntry.name
        = (successIndexes 0 images).map (fun j => entryName "snap" (j + 1)) ∧
      (successIndexes 0 images).Sorted (· < ·) := by
  have hlen : images.length ≠ 0 := by
    intro hc; exact h (List.length_eq_zero.mp hc)
  rw [handleBatchDownload, if_neg hlen]
  exact ⟨_, rfl, batchEntries_names "snap" 0 images,
    successIndexes_sorted 0 images⟩

/-- C2 witness: the concrete job with a failing first source has its single
entry named snap-2.png, matching the positional naming rule. -/
theorem batch_naming_positional_witness :
    ∃ r, handleBatchDownload [Source.remote .reject, Source.dataUrl "AAAA"]
        = some r ∧
      r.entries.map ZipEntry.name
        = (successIndexes 0 [Source.remote .reject, Source.dataUrl "AAAA"]).map
            (fun j => entryName "snap" (j + 1)) ∧
      (successIndexes 0 [Source.remote .reject, Source.dataUrl "AAAA"]).Sorted
        (· < ·) :=
  batch_naming_positional [Source.remote .reject, Source.dataUrl "AAAA"]
    (by decide)

/-! ## Claim C8 — progress reporting -/

/-- C8.  After each source, whether it succeeded or failed, progress is
reported as round of ((i+1)/total)·100; the reports are monotonically
non-decreasing and the final report of a non-empty job is 100. -/
theorem batch_progress_reports (images : List Source) (h : images ≠ []) :
    ∃ r, handleBatchDownload images = some r ∧
      r.progressReports = (List.range images.length).map
        (fun (i : ℕ) => jsRound ((((i : ℚ) + 1) / (images.length : ℚ)) * 100)) ∧
      r.progressReports.Sorted (· ≤ ·) ∧
      r.progressReports.getLast? = some 100 := by
  have hlen : images.length ≠ 0 := by
    intro hc; exact h (List.length_eq_zero.mp hc)
  rw [handleBatchDownload, if_neg hlen]
  exact ⟨_, rfl, rfl, batchProgress_sorted images.length,
    batchProgress_getLast images.length hlen⟩

/-- C8 witness: a concrete three-source job (one failing) reports the
values of the rounding formula, in non-decreasing order, ending at 100. -/
theorem batch_progress_reports_witness :
    ∃ r, handleBatchDownload
        [Source.dataUrl "AAAA", Source.remote .reject, Source.dataUrl "BBBB"]
        = some r ∧
      r.progressReports = (List.range
          ([Source.dataUrl "AAAA", Source.remote .reject,
            Source.dataUrl "BBBB"]).length).map
        (fun (i : ℕ) => jsRound ((((i : ℚ) + 1)
          / (([Source.dataUrl "AAAA", Source.remote .reject,
              Source.dataUrl "BBBB"]).length : ℚ)) * 100)) ∧
      r.progressReports.Sorted (· ≤ ·) ∧
      r.progressReports.getLast? = some 100 :=
  batch_progress_reports
    [Source.dataUrl "AAAA", Source.remote .reject, Source.dataUrl "BBBB"]
    (by decide)

/-! ## Claim C10 — the completion message counts inputs, not entries -/

/-- C10.  On successful serialization the completion toast always reports the
input list's length; when some source failed the archive holds strictly fewer
entries than that reported count. -/
theorem batch_message_counts_inputs (images : List Source) (h : images ≠ []) :
    ∃ r, handleBatchDownload images = some r ∧
      r.successMessage
        = "Downloaded " ++ toString images.length ++ " images as ZIP!" ∧
      ((∃ s ∈ images, sourceFails s = true) →
        r.entries.length < images.length) := by
  have hlen : images.length ≠ 0 := by
    intro hc; exact h (List.length_eq_zero.mp hc)
  rw [handleBatchDownload, if_neg hlen]
  refine ⟨_, rfl, rfl, ?_⟩
  · intro hfail
    calc (batchEntries "snap" 0 images).length
        = (images.filter (fun s => !sourceFails s)).length :=
          batchEntries_length "snap" 0 images
      _ < images.length := filter_not_fails_lt images hfail

/-- C10 witness: the concrete two-source job with a failing second source
reports "Downloaded 2 images" while the archive holds a single entry. -/
theorem batch_message_counts_inputs_witness :
    ∃ r, handleBatchDownload [Source.dataUrl "AAAA", Source.remote .reject]
        = some r ∧
      r.successMessage
        = "Downloaded "
            ++ toString ([Source.dataUrl "AAAA", Source.remote .reject]).length
            ++ " images as ZIP!" ∧
      ((∃ s ∈ [Source.dataUrl "AAAA", Source.remote .reject],
          sourceFails s = true) →
        r.entries.length
          < ([Source.dataUrl "AAAA", Source.remote .reject]).length) :=
  batch_message_counts_inputs [Source.dataUrl "AAAA", Source.remote .reject]
    (by decide)

/-! ## Pixel enhancement pipeline

Model of `applyEnhancements` and `applySharpening` from `ImageEnhancer.tsx`.
Channel arithmetic is exact rational arithmetic; the write-back into the
`Uint8ClampedArray` (`data[i] = …`) applies the ECMAScript `ToUint8Clamp`
conversion, modelled by `toUint8Clamp`. -/

/-- The six slider values of the enhancement settings record. -/
structure EnhanceSettings where
  brightness : ℚ
  contrast : ℚ
  saturation : ℚ
  sharpness : ℚ
  warmth : ℚ
  vibrance : ℚ
deriving DecidableEq, Repr

/-- All six sliders at their neutral value 0 (the DEFAULT_SETTINGS record). -/
def zeroSettings : EnhanceSettings := ⟨0, 0, 0, 0, 0, 0⟩

/-- One RGBA pixel as stored in a `Uint8ClampedArray`: four bytes. -/
structure Pixel where
  r : ℕ
  g : ℕ
  b : ℕ
  a : ℕ
deriving DecidableEq, Repr

/-- A pixel is a well-formed array element when each channel fits in a byte. -/
def validPixel (p : Pixel) : Prop := p.r ≤ 255 ∧ p.g ≤ 255 ∧ p.b ≤ 255

/-- Round to the nearest integer, ties to even — the rounding performed by a
store into a `Uint8ClampedArray` (ECMAScript `ToUint8Clamp`). -/
def roundTiesToEven (x : ℚ) : ℤ :=
  if x - ⌊x⌋ < 1 / 2 then ⌊x⌋
  else if 1 / 2 < x - ⌊x⌋ then ⌊x⌋ + 1
  else if ⌊x⌋ % 2 = 0 then ⌊x⌋ else ⌊x⌋ + 1

/-- ECMAScript `ToUint8Clamp`: clamp to [0, 255], then round ties-to-even. -/
def toUint8Clamp (x : ℚ) : ℕ :=
  (roundTiesToEven (max 0 (min 255 x))).toNat

/-- The per-pixel body of the enhancement loop in `applyEnhancements`:
brightness, contrast, saturation, warmth and vibrance stages applied in
order to the three colour channels, before clamping and write-back. -/
def enhanceRGB (s : EnhanceSettings) (r0 g0 b0 : ℕ) : ℚ × ℚ × ℚ :=
  let r : ℚ := r0
  let g : ℚ := g0
  let b : ℚ := b0
  let brightness := s.brightness * 2.55
  let r := r + brightness
  let g := g + brightness
  let b := b + brightness
  let contrast := (s.contrast + 100) / 100
  let r := ((r / 255 - 0.5) * contrast + 0.5) * 255
  let g := ((g / 255 - 0.5) * contrast + 0.5) * 255
  let b := ((b / 255 - 0.5) * contrast + 0.5) * 255
  let gray := 0.2989 * r + 0.587 * g + 0.114 * b
  let satFactor := (s.saturation + 100) / 100
  let r := gray + satFactor * (r - gray)
  let g := gray + satFactor * (g - gray)
  let b := gray + satFactor * (b - gray)
  let r := r + s.warmth * 1.5
  let g := g + s.warmth * 0.5
  let b := b - s.warmth * 1.5
  let vibrance := s.vibrance / 100
  let maxChannel := max r (max g b)
  let avgChannel := (r + g + b) / 3
  let vibranceAmount := (maxChannel - avgChannel) / 255 * vibrance
  let r := r + (r - avgChannel) * vibranceAmount
  let g := g + (g - avgChannel) * vibranceAmount
  let b := b + (b - avgChannel) * vibranceAmount
  (r, g, b)

/-- One pixel through the enhancement pass: the three channels run through
the stage pipeline, are clamped with Math.max/Math.min and stored back into
the clamped array; alpha is untouched. -/
def enhancePixel (s : EnhanceSettings) (p : Pixel) : Pixel :=
  let rgb := enhanceRGB s p.r p.g p.b
  { r := toUint8Clamp (max 0 (min 255 rgb.1))
    g := toUint8Clamp (max 0 (min 255 rgb.2.1))
    b := toUint8Clamp (max 0 (min 255 rgb.2.2))
    a := p.a }

/-- An RGBA image: canvas dimensions and the pixel at each coordinate. -/
structure Image where
  width : ℕ
  height : ℕ
  pix : ℕ → ℕ → Pixel

/-- One channel of one interior pixel through the sharpening kernel:
unsharp masking against the 4-neighbor average, clamped and stored. -/
def sharpenChannel (amount : ℚ) (center up down left right : ℕ) : ℕ :=
  let neighbors : ℚ := ((up : ℚ) + (down : ℚ) + (left : ℚ) + (right : ℚ)) / 4
  let sharpened := (center : ℚ) + ((center : ℚ) - neighbors) * amount
  toUint8Clamp (max 0 (min 255 sharpened))

/-- `applySharpening`: the loops `for (let y = 1; y < height - 1; y++)` and
`for (let x = 1; x < width - 1; x++)` rewrite exactly the pixels with all
four axis neighbors, reading every operand from `tempData`, the unmodified
snapshot of the buffer, so the pass is a pure function of the input image;
all other pixels, the one-pixel border included, keep their bytes. -/
def applySharpening (amount : ℚ) (img : Image) : Image :=
  { img with pix := fun x y =>
      if 1 ≤ x ∧ x + 1 < img.width ∧ 1 ≤ y ∧ y + 1 < img.height then
        { r := sharpenChannel amount (img.pix x y).r (img.pix x (y - 1)).r
            (img.pix x (y + 1)).r (img.pix (x - 1) y).r (img.pix (x + 1) y).r
          g := sharpenChannel amount (img.pix x y).g (img.pix x (y - 1)).g
            (img.pix x (y + 1)).g (img.pix (x - 1) y).g (img.pix (x + 1) y).g
          b := sharpenChannel amount (img.pix x y).b (img.pix x (y - 1)).b
            (img.pix x (y + 1)).b (img.pix (x - 1) y).b (img.pix (x + 1) y).b
          a := (img.pix x y).a }
      else img.pix x y }

/-- The per-pixel enhancement pass over the whole buffer. -/
def enhanceImage (s : EnhanceSettings) (img : Image) : Image :=
  { img with pix := fun x y => enhancePixel s (img.pix x y) }

/-- `applyEnhancements`: the per-pixel pass, followed by the sharpening pass
exactly when `settings.sharpness > 0`, with `amount = sharpness / 100`. -/
def enhance (s : EnhanceSettings) (img : Image) : Image :=
  if 0 < s.sharpness then applySharpening (s.sharpness / 100) (enhanceImage s img)
  else enhanceImage s img

theorem roundTiesToEven_intCast (k : ℤ) : roundTiesToEven (k : ℚ) = k := by
  rw [roundTiesToEven]
  norm_num

theorem toUint8Clamp_natCast (n : ℕ) (h : n ≤ 255) : toUint8Clamp (n : ℚ) = n := by
  rw [toUint8Clamp]
  have hmin : min 255 ((n : ℚ)) = (n : ℚ) :=
    min_eq_right (by exact_mod_cast h)
  have hmax : max 0 ((n : ℚ)) = (n : ℚ) :=
    max_eq_right (by positivity)
  rw [hmin, hmax]
  have hcast : ((n : ℚ)) = (((n : ℤ) : ℚ)) := by push_cast; ring
  rw [hcast, roundTiesToEven_intCast, Int.toNat_natCast]

/-- All six stages at neutral settings compose to the identity on the exact
rational channel values. -/
theorem enhanceRGB_zero (r0 g0 b0 : ℕ) :
    enhanceRGB zeroSettings r0 g0 b0 = ((r0 : ℚ), (g0 : ℚ), (b0 : ℚ)) := by
  simp only [enhanceRGB, zeroSettings, Prod.mk.injEq]
  norm_num

theorem enhancePixel_zero (p : Pixel) (h : validPixel p) :
    enhancePixel zeroSettings p = p := by
  obtain ⟨hr, hg, hb⟩ := h
  rw [enhancePixel, enhanceRGB_zero]
  have hclamp : ∀ n : ℕ, n ≤ 255 → max 0 (min 255 ((n : ℚ))) = (n : ℚ) := by
    intro n hn
    rw [min_eq_right (by exact_mod_cast hn), max_eq_right (by positivity)]
  cases p with
  | mk r g b a =>
    simp only
    rw [hclamp r hr, hclamp g hg, hclamp b hb,
      toUint8Clamp_natCast r hr, toUint8Clamp_natCast g hg,
      toUint8Clamp_natCast b hb]

theorem roundTiesToEven_le_255 {x : ℚ} (hx : x ≤ 255) : roundTiesToEven x ≤ 255 := by
  have hfloor : ⌊x⌋ ≤ 255 := by
    have h := Int.floor_le_floor hx
    simpa using h
  have hle : (⌊x⌋ : ℚ) ≤ x := Int.floor_le x
  rw [roundTiesToEven]
  split_ifs with h1 h2 h3
  · exact hfloor
  · have hlt : (⌊x⌋ : ℚ) < 255 := by linarith
    have : ⌊x⌋ < 255 := by exact_mod_cast hlt
    omega
  · exact hfloor
  · have h1' : 1 / 2 ≤ x - ⌊x⌋ := not_lt.mp h1
    have hlt : (⌊x⌋ : ℚ) < 255 := by linarith
    have : ⌊x⌋ < 255 := by exact_mod_cast hlt
    omega

theorem toUint8Clamp_le_255 (x : ℚ) : toUint8Clamp x ≤ 255 := by
  rw [toUint8Clamp]
  have h : max 0 (min 255 x) ≤ 255 :=
    max_le (by norm_num) (min_le_left _ _)
  have hr := roundTiesToEven_le_255 h
  exact Int.toNat_le.mpr (by exact_mod_cast hr)

theorem sharpenChannel_le_255 (amount : ℚ) (center up down left right : ℕ) :
    sharpenChannel amount center up down left right ≤ 255 := by
  simp only [sharpenChannel]
  exact toUint8Clamp_le_255 _

theorem enhancePixel_le_255 (s : EnhanceSettings) (p : Pixel) :
    (enhancePixel s p).r ≤ 255 ∧ (enhancePixel s p).g ≤ 255 ∧
      (enhancePixel s p).b ≤ 255 := by
  simp only [enhancePixel]
  exact ⟨toUint8Clamp_le_255 _, toUint8Clamp_le_255 _, toUint8Clamp_le_255 _⟩

/-! ## Claim C3 — neutral settings are the identity -/

/-- C3.  With all six settings at zero, `enhance` returns every pixel of
every well-formed buffer unchanged: the stages compose to the exact identity
on the rational channel values, so the final clamped store rounds each
channel back to its original byte, and no sharpening pass runs. -/
theorem enhance_zero_identity (img : Image)
    (hvalid : ∀ x y, validPixel (img.pix x y)) :
    ∀ x y, (enhance zeroSettings img).pix x y = img.pix x y := by
  intro x y
  rw [enhance, if_neg (by norm_num [zeroSettings])]
  exact enhancePixel_zero (img.pix x y) (hvalid x y)

/-- C3 witness: a concrete one-pixel buffer is returned unchanged. -/
theorem enhance_zero_identity_witness :
    (enhance zeroSettings ⟨1, 1, fun _ _ => ⟨10, 20, 30, 255⟩⟩).pix 0 0
      = (⟨1, 1, fun _ _ => ⟨10, 20, 30, 255⟩⟩ : Image).pix 0 0 :=
  enhance_zero_identity ⟨1, 1, fun _ _ => ⟨10, 20, 30, 255⟩⟩
    (fun _ _ => ⟨by norm_num, by norm_num, by norm_num⟩) 0 0

/-! ## Claim C4 — output channels always fit in a byte -/

/-- C4.  For every buffer and every settings vector, however extreme, every
colour channel produced by `enhance` — after the per-pixel pass and, when it
runs, after the sharpening pass — lies in [0, 255] (the lower bound holds
because channels are naturals; the clamped store bounds them above). -/
theorem enhance_output_bounded (s : EnhanceSettings) (img : Image) (x y : ℕ) :
    ((enhance s img).pix x y).r ≤ 255 ∧
    ((enhance s img).pix x y).g ≤ 255 ∧
    ((enhance s img).pix x y).b ≤ 255 := by
  rw [enhance]
  split_ifs with hs
  · simp only [applySharpening, enhanceImage]
    split_ifs with hin
    · exact ⟨sharpenChannel_le_255 _ _ _ _ _ _, sharpenChannel_le_255 _ _ _ _ _ _,
        sharpenChannel_le_255 _ _ _ _ _ _⟩
    · exact enhancePixel_le_255 s _
  · exact enhancePixel_le_255 s _

/-! ## Claim C6 — sharpening never touches the border -/

/-- C6.  For every buffer and every sharpening amount, the sharpening pass
leaves every pixel of the one-pixel border (x = 0, x = width−1, y = 0 or
y = height−1) exactly unchanged: the loops only rewrite pixels that have all
four axis neighbors. -/
theorem sharpen_border_unchanged (amount : ℚ) (img : Image) (x y : ℕ)
    (hx : x < img.width) (hy : y < img.height)
    (hborder : x = 0 ∨ x = img.width - 1 ∨ y = 0 ∨ y = img.height - 1) :
    (applySharpening amount img).pix x y = img.pix x y := by
  have hnot : ¬ (1 ≤ x ∧ x + 1 < img.width ∧ 1 ≤ y ∧ y + 1 < img.height) := by
    rcases hborder with rfl | hxe | rfl | hye
    · omega
    · omega
    · omega
    · omega
  simp only [applySharpening]
  rw [if_neg hnot]

/-- C6 witness: the corner pixel of a concrete 3×3 buffer is unchanged by a
sharpening pass with amount 2. -/
theorem sharpen_border_unchanged_witness :
    (applySharpening 2 ⟨3, 3, fun _ _ => ⟨40, 80, 120, 255⟩⟩).pix 0 0
      = (⟨3, 3, fun _ _ => ⟨40, 80, 120, 255⟩⟩ : Image).pix 0 0 :=
  sharpen_border_unchanged 2 ⟨3, 3, fun _ _ => ⟨40, 80, 120, 255⟩⟩ 0 0
    (by norm_num) (by norm_num) (Or.inl rfl)

/-! ## Claim C5 — the brightness-50 scenario pixel -/

/-- The settings of the scenario: brightness 50, everything else 0. -/
def bright50 : EnhanceSettings := ⟨50, 0, 0, 0, 0, 0⟩

/-- A one-pixel buffer holding the scenario pixel (100, 100, 100, 255). -/
def gray100Image : Image := ⟨1, 1, fun _ _ => ⟨100, 100, 100, 255⟩⟩

theorem enhanceRGB_bright50 :
    enhanceRGB bright50 100 100 100 = (455 / 2, 455 / 2, 455 / 2) := by
  simp only [enhanceRGB, bright50, Prod.mk.injEq]
  norm_num

theorem toUint8Clamp_half : toUint8Clamp (455 / 2) = 228 := by
  have hclamp : max (0 : ℚ) (min 255 (455 / 2)) = 455 / 2 := by
    rw [min_eq_right (by norm_num), max_eq_right (by norm_num)]
  have hfloor : ⌊(455 / 2 : ℚ)⌋ = 227 := by
    rw [Int.floor_eq_iff]
    norm_num
  rw [toUint8Clamp, hclamp, roundTiesToEven, hfloor]
  norm_num
  rfl

theorem enhancePixel_bright50 :
    enhancePixel bright50 ⟨100, 100, 100, 255⟩ = ⟨228, 228, 228, 255⟩ := by
  rw [enhancePixel, enhanceRGB_bright50]

  have hclamp : max (0 : ℚ) (min 255 (455 / 2)) = 455 / 2 := by
    rw [min_eq_right (by norm_num), max_eq_right (by norm_num)]
  simp only [hclamp, toUint8Clamp_half]

/-- C5, counterexample.  The claim asserts that enhancing the pixel
(100, 100, 100, 255) with brightness 50 and every other setting 0 yields
(227, 227, 227, 255).  The exact channel value reaching the store is
100 + 50·2.55 = 227.5, and the `Uint8ClampedArray` store rounds ties to
even, so the stored byte is 228, not 227. -/
theorem enhance_bright50_not_227 :
    (enhance bright50 gray100Image).pix 0 0 ≠ ⟨227, 227, 227, 255⟩ := by
  have hpix : (enhance bright50 gray100Image).pix 0 0
      = enhancePixel bright50 ⟨100, 100, 100, 255⟩ := by
    rw [enhance, if_neg (by norm_num [bright50])]
    rfl
  rw [hpix, enhancePixel_bright50]
  decide

/-- C5, amended.  Enhancing the pixel (100, 100, 100, 255) with brightness
50 and all other settings 0 yields (228, 228, 228, 255): the pre-store value
is exactly 227.5 and the clamped store rounds the tie to the even byte. -/
theorem enhance_bright50_pixel_value :
    (enhance bright50 gray100Image).pix 0 0 = ⟨228, 228, 228, 255⟩ := by
  have hpix : (enhance bright50 gray100Image).pix 0 0
      = enhancePixel bright50 ⟨100, 100, 100, 255⟩ := by
    rw [enhance, if_neg (by norm_num [bright50])]
    rfl
  rw [hpix, enhancePixel_bright50]

/-! ## Watermark layout

Model of the layout arithmetic of `drawWatermark` in `WatermarkEditor.tsx`:
the text is split on newlines, `lineHeight = fontSize * 1.3`,
`totalHeight = lineHeight * lines.length`, `padding = 30`, and line `index`
is passed to `fillText` at vertical coordinate `baseY + index * lineHeight`,
with `baseY` depending on the anchor position. -/

/-- The five anchor positions of the watermark. -/
inductive WatermarkPosition where
  | topLeft
  | topRight
  | bottomLeft
  | bottomRight
  | center
deriving DecidableEq, Repr

/-- The fixed padding used by `drawWatermark`. -/
def watermarkPadding : ℚ := 30

/-- Line height: `fontSize * 1.3`. -/
def lineHeight (fontSize : ℚ) : ℚ := fontSize * 1.3

/-- Total height of the text block: `lineHeight * lines.length`. -/
def totalHeight (fontSize : ℚ) (lineCount : ℕ) : ℚ :=
  lineHeight fontSize * lineCount

/-- The vertical base coordinate chosen by the anchor switch. -/
def watermarkBaseY (pos : WatermarkPosition) (canvasHeight fontSize : ℚ)
    (lineCount : ℕ) : ℚ :=
  match pos with
  | .topLeft => watermarkPadding + fontSize
  | .topRight => watermarkPadding + fontSize
  | .bottomLeft =>
      canvasHeight - watermarkPadding - totalHeight fontSize lineCount + fontSize
  | .bottomRight =>
      canvasHeight - watermarkPadding - totalHeight fontSize lineCount + fontSize
  | .center =>
      canvasHeight / 2 - totalHeight fontSize lineCount / 2 + fontSize

/-- The vertical coordinate handed to `fillText` for the line at `index`:
`baseY + index * lineHeight`. -/
def watermarkLineY (pos : WatermarkPosition) (canvasHeight fontSize : ℚ)
    (lineCount index : ℕ) : ℚ :=
  watermarkBaseY pos canvasHeight fontSize lineCount + index * lineHeight fontSize

/-! ## Claim C7 — bottom-right two-line layout -/

/-- C7.  For anchor bottom-right with padding 30 and a two-line text, line
`i` is drawn at `baseY + i * (fontSize * 1.3)` with
`baseY = height - padding - totalHeight + fontSize`, and the second line sits
exactly `fontSize * 1.3` below the first. -/
theorem watermark_bottomRight_layout (canvasHeight fontSize : ℚ) (i : ℕ) :
    watermarkLineY .bottomRight canvasHeight fontSize 2 i
      = (canvasHeight - 30 - totalHeight fontSize 2 + fontSize)
        + i * (fontSize * 1.3) ∧
    watermarkLineY .bottomRight canvasHeight fontSize 2 1
      = watermarkLineY .bottomRight canvasHeight fontSize 2 0
        + fontSize * 1.3 := by
  constructor
  · rfl
  · simp only [watermarkLineY, watermarkBaseY, lineHeight]
    push_cast
    ring

/-! ## Watermark editor download guard -/

/-- The disabled predicate of the watermark editor's Download button: the
button carries disabled when a download is processing or the text is the
empty string (JavaScript treats the empty string as falsy). -/
def downloadDisabled (isProcessing : Bool) (text : String) : Bool :=
  isProcessing || text.isEmpty

/-- A click on the Download control: a disabled button does nothing; an
enabled one runs `handleDownload`, which exports the canvas carrying the
watermark text.  The export performed, when any, is reported as the text it
embeds. -/
def clickDownload (isProcessing : Bool) (text : String) : Option String :=
  if downloadDisabled isProcessing text then none else some text

/-! ## Claim C9 — empty text blocks the export -/

/-- C9.  With empty watermark text the Download control is disabled whatever
the processing state, so a click performs no export at all: no export with
empty text ever starts, hence no error can be raised mid-operation. -/
theorem empty_text_blocks_download (isProcessing : Bool) :
    downloadDisabled isProcessing "" = true ∧
    clickDownload isProcessing "" = none := by
  cases isProcessing <;> exact ⟨rfl, rfl⟩

end Selfie2Snap
